import Mathlib

/-!
Shallow embedding of the SVG toolpath-volume pipeline (src/app.py).

Numbers are modelled as rationals.  Trigonometric sample values (cos/sin of
2*pi*i/N) are abstracted as oracle functions `cosF sinF : Nat → ℚ`, and the
external libraries (shapely's `is_valid`/`covers`, svgpathtools' path parsing)
are abstracted as oracle parameters; every theorem quantifies over them.
shapely's `Polygon.area` is modelled as the shoelace area of the vertex ring,
which is the formula the spec prescribes and the one GEOS computes.
-/

namespace SvgVol

/-- A 2D point, as the pair `(x, y)` used throughout `app.py`. -/
abbrev Point : Type := ℚ × ℚ

/-- A polygon boundary ring: the raw point list handed to `Polygon(points)`. -/
abbrev Ring : Type := List Point

/-- Sample-count constant `CIRCLE_SAMPLES = 1000` (app.py line 16). -/
def CIRCLE_SAMPLES : ℕ := 1000

/-- Sample-count constant `ELLIPSE_SAMPLES = 1000` (app.py line 17). -/
def ELLIPSE_SAMPLES : ℕ := 1000

/-- Sample-count constant `CURVE_SAMPLES = 1000` (app.py line 18). -/
def CURVE_SAMPLES : ℕ := 1000

/-- `bezier_point` (app.py lines 21-27): cubic Bernstein interpolation of one
coordinate of the four control points at parameter `t`. -/
def bezier_point (p0 p1 p2 p3 t : ℚ) : ℚ :=
  (1 - t) ^ 3 * p0
    + 3 * (1 - t) ^ 2 * t * p1
    + 3 * (1 - t) * t ^ 2 * p2
    + t ^ 3 * p3

/-- Cross product term `x_i * y_j - x_j * y_i` of one directed polygon edge. -/
def edgeCross (p q : Point) : ℚ := p.1 * q.2 - q.1 * p.2

/-- Sum of edge cross products along a ring, starting from current point `cur`
and closing back to `first`. -/
def ringCross (first : Point) : Point → List Point → ℚ
  | cur, [] => edgeCross cur first
  | cur, q :: rest => edgeCross cur q + ringCross first q rest

/-- The shoelace sum of a closed vertex ring: the sum of cross products of
consecutive vertex pairs, wrapping around from the last vertex to the first. -/
def shoelaceSum : List Point → ℚ
  | [] => 0
  | p :: rest => ringCross p p rest

/-- Model of shapely's `Polygon.area`: half the absolute value of the shoelace
sum, exactly the "standard shoelace formula" of the spec (section 4.4). -/
def polyArea (pts : List Point) : ℚ := |shoelaceSum pts| / 2

/-- A shape dict `{'polygon': poly, 'nest_level': n}` (app.py line 38). -/
structure Shape where
  polygon : Ring
  nest_level : ℕ
deriving DecidableEq, Repr

/-- `add_polygon` (app.py lines 36-38): append the candidate with nest level 0
iff it is valid and has strictly positive area.  shapely's `is_valid` is the
oracle `isValid`. -/
def add_polygon (isValid : Ring → Bool) (shapes : List Shape) (poly : Ring) :
    List Shape :=
  if isValid poly && decide (0 < polyArea poly) then
    shapes ++ [{ polygon := poly, nest_level := 0 }]
  else
    shapes

/-- Circle sampling (app.py lines 60-66): `CIRCLE_SAMPLES + 1` points
`(cx + r*cos(2*pi*i/N), cy + r*sin(2*pi*i/N))`; `cosF i`/`sinF i` stand for
the cos/sin values at angle `2*pi*i/N`. -/
def circle_points (cx cy r : ℚ) (cosF sinF : ℕ → ℚ) : List Point :=
  (List.range (CIRCLE_SAMPLES + 1)).map fun i => (cx + r * cosF i, cy + r * sinF i)

/-- Ellipse sampling (app.py lines 78-84).  Faithful to the source: BOTH
coordinates use `math.cos` of the same angle (`cy + ry * math.cos(...)` on
line 81), so the same oracle value `cosF i` appears in `x` and `y`. -/
def ellipse_points (cx cy rx ry : ℚ) (cosF : ℕ → ℚ) : List Point :=
  (List.range (ELLIPSE_SAMPLES + 1)).map fun i => (cx + rx * cosF i, cy + ry * cosF i)

/-- The sampled points of one cubic Bezier path segment (app.py lines 112-115):
for `t = i / CURVE_SAMPLES`, `i = 0 .. CURVE_SAMPLES`, apply `bezier_point`
independently to the x and y coordinates of the four control points. -/
def sample_cubic (p0 p1 p2 p3 : Point) : List Point :=
  (List.range (CURVE_SAMPLES + 1)).map fun i : ℕ =>
    (bezier_point p0.1 p1.1 p2.1 p3.1 ((i : ℚ) / (CURVE_SAMPLES : ℚ)),
     bezier_point p0.2 p1.2 p2.2 p3.2 ((i : ℚ) / (CURVE_SAMPLES : ℚ)))

/-- One path segment, the closed tagged variant behind the dynamic dispatch of
app.py lines 102-128: cubic Bezier (has `control1`/`control2`), arc (sampled
through the library's `seg.point(t)`, abstracted as `pt i` for
`t = i / CURVE_SAMPLES`), or line/fallback (start and end only). -/
inductive Seg where
  | cubic (p0 p1 p2 p3 : Point)
  | arc (pt : ℕ → Point)
  | line (p0 p3 : Point)

/-- Points contributed by one segment to the running subpath point list. -/
def seg_points : Seg → List Point
  | .cubic p0 p1 p2 p3 => sample_cubic p0 p1 p2 p3
  | .arc pt => (List.range (CURVE_SAMPLES + 1)).map fun i => pt i
  | .line p0 p3 => [p0, p3]

/-- Point list of one continuous subpath (app.py lines 101-128): the
concatenation of every segment's sampled points, in order. -/
def subpath_points (sub : List Seg) : List Point :=
  sub.foldl (fun pts seg => pts ++ seg_points seg) []

/-- One SVG element as dispatched on by `parse_svg_shapes` (app.py lines
41-133): rect / circle / ellipse with numeric attributes (missing attributes
already defaulted to 0), a path with its raw `d` attribute (absent = `none`),
or any other element, which is ignored. -/
inductive Elem where
  | rect (x y w h : ℚ)
  | circle (cx cy r : ℚ)
  | ellipse (cx cy rx ry : ℚ)
  | path (d : Option String)
  | other

/-- The boundary ring a `rect` element produces (app.py line 52). -/
def rect_ring (x y w h : ℚ) : Ring :=
  [(x, y), (x + w, y), (x + w, y + h), (x, y + h)]

/-- Candidate polygon rings produced by one element (app.py lines 44-133).
`pp` abstracts `parse_path(d).continuous_subpaths()` as a list of subpaths,
each a list of segments.  A path with absent or empty `d` is skipped
(lines 94-96); a subpath yields a candidate only with at least 3 points
(line 131). -/
def elem_rings (cosF sinF : ℕ → ℚ) (pp : String → List (List Seg)) :
    Elem → List Ring
  | .rect x y w h => [rect_ring x y w h]
  | .circle cx cy r => [circle_points cx cy r cosF sinF]
  | .ellipse cx cy rx ry => [ellipse_points cx cy rx ry cosF]
  | .path none => []
  | .path (some d) =>
      if d == "" then []
      else (pp d).filterMap fun sub =>
        let pts := subpath_points sub
        if 3 ≤ pts.length then some pts else none
  | .other => []

/-- `parse_svg_shapes` (app.py lines 30-135) on an already-parsed document,
modelled as the list of elements `root.iter()` visits: fold over the elements,
adding each element's candidate rings through `add_polygon`. -/
def parse_svg_shapes (isValid : Ring → Bool) (cosF sinF : ℕ → ℚ)
    (pp : String → List (List Seg)) (doc : List Elem) : List Shape :=
  doc.foldl (fun shapes e => (elem_rings cosF sinF pp e).foldl (add_polygon isValid) shapes) []

/-- Replace the element at index `j` by `f` of it (identity out of range):
the list update behind `shapes[j]["nest_level"] += 1`. -/
def modifyNth (f : α → α) : ℕ → List α → List α
  | _, [] => []
  | 0, a :: l => f a :: l
  | n + 1, a :: l => a :: modifyNth f n l

/-- Increment a shape's nest level by one (app.py line 143). -/
def bump_nest (s : Shape) : Shape := { s with nest_level := s.nest_level + 1 }

/-- Whether the polygon at index `i` covers the polygon at index `j`, with
shapely's `covers` abstracted as the oracle `covers`. -/
def coversAt (covers : Ring → Ring → Bool) (polys : List Ring) (i j : ℕ) : Bool :=
  match polys.get? i, polys.get? j with
  | some po, some pin => covers po pin
  | _, _ => false

/-- The nesting double loop of `compute_signed_area` (app.py lines 140-143):
for every ordered index pair `(i, j)` with `i ≠ j`, if shape `i`'s polygon
covers shape `j`'s polygon, increment shape `j`'s nest level.  The polygons
consulted are those of the incoming list: the loop only ever mutates
`nest_level`, never a polygon. -/
def nesting_pass (covers : Ring → Ring → Bool) (shapes : List Shape) : List Shape :=
  let polys := shapes.map fun s => s.polygon
  (List.range shapes.length).foldl
    (fun acc i =>
      (List.range shapes.length).foldl
        (fun acc2 j =>
          if i != j && coversAt covers polys i j then modifyNth bump_nest j acc2 else acc2)
        acc)
    shapes

/-- The summation loop of `compute_signed_area` (app.py lines 146-150):
accumulate `sign * area` with sign `+1` for even nest level, `-1` for odd. -/
def signed_sum (shapes : List Shape) : ℚ :=
  shapes.foldl
    (fun total s =>
      total + (if s.nest_level % 2 == 0 then (1 : ℚ) else -1) * polyArea s.polygon)
    0

/-- `compute_signed_area` (app.py lines 139-150): resolve nesting in place,
then sum the parity-signed areas. -/
def compute_signed_area (covers : Ring → Ring → Bool) (shapes : List Shape) : ℚ :=
  signed_sum (nesting_pass covers shapes)

/-- The volume formula of app.py line 197: `area_mm2 * depth / 1000`. -/
def compute_volume (net_area depth : ℚ) : ℚ := net_area * depth / 1000

/-- Numeric value of a decimal digit character. -/
def digitVal (c : Char) : ℚ := ((c.toNat - '0'.toNat : ℕ) : ℚ)

/-- Value of an integer-part digit string, most significant first. -/
def intPartVal (cs : List Char) : ℚ := cs.foldl (fun a c => 10 * a + digitVal c) 0

/-- Value of a fractional-part digit string (the digits after the dot). -/
def fracPartVal (cs : List Char) : ℚ := cs.foldr (fun c a => (digitVal c + a) / 10) 0

/-- Value of a validated decimal literal: digits with at most one dot. -/
def decimalValue (cs : List Char) : ℚ :=
  intPartVal (cs.takeWhile fun c => c ≠ '.')
    + fracPartVal (((cs.dropWhile fun c => c ≠ '.').drop 1))

/-- The depth validation of `calculate` (app.py lines 175-183), on the depth
text as a character list: reject empty input; treat a leading dot as `0.`;
accept only digit characters with at most one dot; parse the accepted string's
decimal value.  Model limitation: the source's `float()` overflows to infinity
on all-digit strings beyond double range (e.g. 400 nines), which still pass
these checks; the exact rational `decimalValue` cannot express that non-finite
outcome, so no finiteness guarantee is claimed from this model. -/
def validateDepth (s : List Char) : Option ℚ :=
  if s = [] then none
  else
    let s2 := if s.head? = some '.' then '0' :: s else s
    if (s2.all fun c => c.isDigit || c == '.') && s2.count '.' ≤ 1 then
      some (decimalValue s2)
    else none

/-- The `calculate` endpoint's computation (app.py lines 171-198) on an
already-parsed document: validate the depth text, then report
`compute_volume` of the signed area of the extracted shapes.  `none` models
the rejection path (flash "Invalid depth"). -/
def calculate (covers : Ring → Ring → Bool) (isValid : Ring → Bool)
    (cosF sinF : ℕ → ℚ) (pp : String → List (List Seg))
    (doc : List Elem) (depth_input : List Char) : Option ℚ :=
  match validateDepth depth_input with
  | none => none
  | some depth =>
      some (compute_volume (compute_signed_area covers (parse_svg_shapes isValid cosF sinF pp doc)) depth)

lemma ringCross_line (a b r s u0 : ℚ) (us : List ℚ) : ∀ uc : ℚ,
    ringCross (a + r * u0, b + s * u0) (a + r * uc, b + s * uc)
      (us.map fun u => (a + r * u, b + s * u)) = (a * s - b * r) * (u0 - uc) := by
  induction us with
  | nil =>
      intro uc
      simp only [List.map_nil, ringCross, edgeCross]
      ring
  | cons v rest ih =>
      intro uc
      simp only [List.map_cons, ringCross]
      rw [ih v]
      simp only [edgeCross]
      ring

/-- The latent ellipse defect: because both coordinates use the same sample
value, every sampled point lies on one straight line, so the shoelace sum of
the ellipse ring vanishes for every radius and every sampling oracle. -/
lemma shoelaceSum_ellipse (cx cy rx ry : ℚ) (cosF : ℕ → ℚ) :
    shoelaceSum (ellipse_points cx cy rx ry cosF) = 0 := by
  have h : ellipse_points cx cy rx ry cosF
      = ((cosF 0) :: ((List.range ELLIPSE_SAMPLES).map fun i => cosF (i + 1))).map
          fun u => (cx + rx * u, cy + ry * u) := by
    simp only [ellipse_points, List.range_succ_eq_map, List.map_cons, List.map_map]
    rfl
  rw [h]
  simp only [List.map_cons, shoelaceSum]
  rw [ringCross_line]
  ring

lemma polyArea_ellipse (cx cy rx ry : ℚ) (cosF : ℕ → ℚ) :
    polyArea (ellipse_points cx cy rx ry cosF) = 0 := by
  simp [polyArea, shoelaceSum_ellipse]

lemma modifyNth_get?_self (f : α → α) (k : ℕ) (l : List α) :
    (modifyNth f k l)[k]? = l[k]?.map f := by
  induction l generalizing k with
  | nil => simp [modifyNth]
  | cons a t ih =>
      cases k with
      | zero => simp [modifyNth]
      | succ k => simpa [modifyNth] using ih k

lemma modifyNth_get?_ne (f : α → α) (k : ℕ) (l : List α) (j : ℕ) (h : j ≠ k) :
    (modifyNth f k l)[j]? = l[j]? := by
  induction l generalizing j k with
  | nil => simp [modifyNth]
  | cons a t ih =>
      cases k with
      | zero =>
          cases j with
          | zero => exact absurd rfl h
          | succ j => simp [modifyNth]
      | succ k =>
          cases j with
          | zero => simp [modifyNth]
          | succ j =>
              simpa [modifyNth] using ih k j (fun hh => h (by rw [hh]))

lemma fold_bump_get (P : ℕ → Bool) (j : ℕ) (js : List ℕ) : ∀ acc : List Shape,
    (js.foldl (fun a j' => if P j' then modifyNth bump_nest j' a else a) acc)[j]?
      = acc[j]?.map fun s =>
          { polygon := s.polygon,
            nest_level := s.nest_level + js.countP fun j' => j' == j && P j' } := by
  induction js with
  | nil =>
      intro acc
      simp only [List.foldl_nil, List.countP_nil]
      cases h : acc[j]? <;> simp
  | cons j' rest ih =>
      intro acc
      simp only [List.foldl_cons]
      rw [ih]
      by_cases hP : P j' = true
      · by_cases hj : j' = j
        · subst hj
          simp only [hP, if_true, modifyNth_get?_self, List.countP_cons, hP,
            beq_self_eq_true, Bool.true_and, if_true, Option.map_map]
          cases acc[j']? with
          | none => rfl
          | some s =>
              show some _ = some _
              rw [Option.some_inj, Shape.mk.injEq]
              exact ⟨rfl, by simp [bump_nest]; omega⟩
        · have hbeq : (j' == j) = false := beq_eq_false_iff_ne.mpr hj
          simp [hP, modifyNth_get?_ne bump_nest j' acc j (fun hh => hj hh.symm),
            List.countP_cons, hbeq]
      · have hP' : P j' = false := by simpa using hP
        simp [hP', List.countP_cons]

lemma countP_range_beq (m j : ℕ) (P : ℕ → Bool) (hj : j < m) :
    ((List.range m).countP fun j' => j' == j && P j') = if P j then 1 else 0 := by
  induction m with
  | zero => omega
  | succ m ih =>
      rw [List.range_succ, List.countP_append]
      rcases Nat.lt_or_ge j m with hlt | hge
      · have hbeq : (m == j) = false := beq_eq_false_iff_ne.mpr (by omega)
        simp [ih hlt, List.countP_cons, hbeq]
      · have hjm : j = m := by omega
        subst hjm
        have hz : ((List.range j).countP fun j' => j' == j && P j') = 0 := by
          rw [List.countP_eq_zero]
          intro a ha
          have : a < j := List.mem_range.mp ha
          simp [beq_eq_false_iff_ne.mpr (Nat.ne_of_lt this)]
        simp [hz, List.countP_cons]

lemma fold_nest_get (Q : ℕ → ℕ → Bool) (m j : ℕ) (hj : j < m) (is : List ℕ) :
    ∀ acc : List Shape,
      (is.foldl (fun a i => (List.range m).foldl
          (fun a2 j' => if Q i j' then modifyNth bump_nest j' a2 else a2) a) acc)[j]?
        = acc[j]?.map fun s =>
            { polygon := s.polygon, nest_level := s.nest_level + is.countP fun i => Q i j } := by
  induction is with
  | nil =>
      intro acc
      simp only [List.foldl_nil, List.countP_nil]
      cases h : acc[j]? <;> simp
  | cons i rest ih =>
      intro acc
      simp only [List.foldl_cons]
      rw [ih, fold_bump_get (Q i) j (List.range m) acc, countP_range_beq m j (Q i) hj,
        Option.map_map, List.countP_cons]
      cases acc[j]? with
      | none => rfl
      | some s =>
          show some _ = some _
          rw [Option.some_inj, Shape.mk.injEq]
          refine ⟨rfl, ?_⟩
          by_cases hQ : Q i j = true <;> (simp [hQ]; try omega)

/-- The number of other extracted shapes whose polygon covers shape `j`'s
polygon: the count of indices `i ≠ j` with `covers` true on the pair. -/
def nest_count (covers : Ring → Ring → Bool) (shapes : List Shape) (j : ℕ) : ℕ :=
  (List.range shapes.length).countP fun i =>
    i != j && coversAt covers (shapes.map fun s => s.polygon) i j

lemma nesting_pass_get? (covers : Ring → Ring → Bool) (shapes : List Shape)
    (j : ℕ) (hj : j < shapes.length) :
    (nesting_pass covers shapes)[j]?
      = shapes[j]?.map fun s =>
          { polygon := s.polygon, nest_level := s.nest_level + nest_count covers shapes j } := by
  simp only [nesting_pass]
  exact fold_nest_get
    (fun i j' => i != j' && coversAt covers (shapes.map fun s => s.polygon) i j')
    shapes.length j hj (List.range shapes.length) shapes

lemma foldl_add_map (f : Shape → ℚ) (l : List Shape) : ∀ a : ℚ,
    l.foldl (fun t s => t + f s) a = a + (l.map f).sum := by
  induction l with
  | nil => intro a; simp
  | cons s rest ih =>
      intro a
      simp only [List.foldl_cons, List.map_cons, List.sum_cons, ih]
      ring

lemma signed_sum_eq_sum (shapes : List Shape) :
    signed_sum shapes
      = (shapes.map fun s =>
          (if s.nest_level % 2 == 0 then (1 : ℚ) else -1) * polyArea s.polygon).sum := by
  simp only [signed_sum]
  rw [foldl_add_map]
  ring

/-- C1: `compute_signed_area` returns the raw sum, over all shapes with their
final nesting depths assigned, of `sign * area`, where area is the unsigned
shoelace area and sign is `+1` for even depth, `-1` for odd; the second
conjunct exhibits a strictly negative raw result returned without clamping. -/
theorem compute_signed_area_parity_sum :
    (∀ (covers : Ring → Ring → Bool) (shapes : List Shape),
      compute_signed_area covers shapes
        = ((nesting_pass covers shapes).map fun s =>
            (if s.nest_level % 2 = 0 then (1 : ℚ) else -1) * polyArea s.polygon).sum)
    ∧ compute_signed_area (fun _ _ => true)
        [{ polygon := [(0,0),(1,0),(1,1),(0,1)], nest_level := 0 },
         { polygon := [(0,0),(1,0),(1,1),(0,1)], nest_level := 0 }] = -2 := by
  constructor
  · intro covers shapes
    rw [compute_signed_area, signed_sum_eq_sum]
    simp
  · have h2 : List.range 2 = [0, 1] := rfl
    rw [compute_signed_area]
    simp [nesting_pass, h2, coversAt, signed_sum, bump_nest, modifyNth]
    norm_num [polyArea, shoelaceSum, ringCross, edgeCross]

/-- C3 (code bug witness): because app.py line 81 samples the y coordinate
with `cos` of the same angle as x, every ellipse candidate's points are
collinear, its shoelace area is 0, and `add_polygon` drops it: extracting an
ellipse-only document yields no shapes, for every radius pair and every
validity and sampling oracle, contrary to the spec's intended independent
cos/sin parameterization with strictly positive area. -/
theorem ellipse_element_always_dropped (isValid : Ring → Bool) (cosF sinF : ℕ → ℚ)
    (pp : String → List (List Seg)) (cx cy rx ry : ℚ) :
    parse_svg_shapes isValid cosF sinF pp [Elem.ellipse cx cy rx ry] = [] := by
  simp only [parse_svg_shapes, List.foldl_cons, List.foldl_nil, elem_rings]
  rw [add_polygon, if_neg]
  simp [polyArea_ellipse]

/-- C2: the nesting loop visits every ordered index pair `(i, j)`, `i ≠ j`,
and increments shape `j` once per covering shape `i`: a shape entering with
depth 0 ends with depth equal to the number of other extracted shapes whose
polygon covers its polygon; and for two mutually non-covering (disjoint)
shapes both final depths are 0. -/
theorem nesting_depth_counts_covering_shapes :
    (∀ (covers : Ring → Ring → Bool) (shapes : List Shape) (j : ℕ) (s : Shape),
      shapes[j]? = some s → s.nest_level = 0 →
      (nesting_pass covers shapes)[j]?
        = some { polygon := s.polygon, nest_level := nest_count covers shapes j })
    ∧ (∀ (covers : Ring → Ring → Bool) (a b : Shape),
      covers a.polygon b.polygon = false → covers b.polygon a.polygon = false →
      a.nest_level = 0 → b.nest_level = 0 →
      ∀ s ∈ nesting_pass covers [a, b], s.nest_level = 0) := by
  constructor
  · intro covers shapes j s hs h0
    have hj : j < shapes.length := by
      by_contra hlt
      rw [List.getElem?_eq_none (by omega)] at hs
      exact Option.noConfusion hs
    rw [nesting_pass_get? covers shapes j hj, hs]
    simp [h0]
  · intro covers a b hab hba ha hb s hs
    have hpair : nesting_pass covers [a, b] = [a, b] := by
      have h2 : List.range 2 = [0, 1] := rfl
      simp [nesting_pass, h2, coversAt, hab, hba]
    rw [hpair] at hs
    simp only [List.mem_cons, List.not_mem_nil, or_false] at hs
    rcases hs with rfl | rfl
    · exact ha
    · exact hb

/-- Witness for C2 at a concrete singleton input. -/
theorem nesting_depth_witness :
    (nesting_pass (fun _ _ => true)
        [{ polygon := [(0,0),(1,0),(1,1),(0,1)], nest_level := 0 }])[0]?
      = some { polygon := [(0,0),(1,0),(1,1),(0,1)],
               nest_level := nest_count (fun _ _ => true)
                 [{ polygon := [(0,0),(1,0),(1,1),(0,1)], nest_level := 0 }] 0 } :=
  nesting_depth_counts_covering_shapes.1 (fun _ _ => true) _ 0 _ rfl rfl

lemma shoelaceSum_rect (x y w h : ℚ) : shoelaceSum (rect_ring x y w h) = 2 * (w * h) := by
  simp only [rect_ring, shoelaceSum, ringCross, edgeCross]
  ring

lemma polyArea_rect (x y w h : ℚ) (hw : 0 < w) (hh : 0 < h) :
    polyArea (rect_ring x y w h) = w * h := by
  rw [polyArea, shoelaceSum_rect, abs_of_nonneg (by nlinarith [mul_pos hw hh])]
  ring

lemma parse_rect (isValid : Ring → Bool) (cosF sinF : ℕ → ℚ)
    (pp : String → List (List Seg)) (x y w h : ℚ)
    (hv : isValid (rect_ring x y w h) = true) (hw : 0 < w) (hh : 0 < h) :
    parse_svg_shapes isValid cosF sinF pp [Elem.rect x y w h]
      = [{ polygon := rect_ring x y w h, nest_level := 0 }] := by
  simp only [parse_svg_shapes, List.foldl_cons, List.foldl_nil, elem_rings]
  rw [add_polygon, if_pos]
  · rfl
  · simp [hv, polyArea_rect x y w h hw hh]
    exact mul_pos hw hh

lemma nesting_pass_singleton (covers : Ring → Ring → Bool) (s : Shape) :
    nesting_pass covers [s] = [s] := rfl

lemma signed_sum_singleton_zero (poly : Ring) :
    signed_sum [{ polygon := poly, nest_level := 0 }] = polyArea poly := by
  simp [signed_sum]

/-- C4: the computed volume is exactly `net_area * depth / 1000`; and for a
document holding a single axis-aligned rectangle of positive width and height
(accepted by the validity oracle) the reported volume is exactly
`w * h * d / 1000`, with no approximation error, for every covers oracle. -/
theorem volume_formula_and_rectangle :
    (∀ net_area depth : ℚ, compute_volume net_area depth = net_area * depth / 1000)
    ∧ (∀ (covers : Ring → Ring → Bool) (isValid : Ring → Bool) (cosF sinF : ℕ → ℚ)
        (pp : String → List (List Seg)) (x y w h d : ℚ),
        isValid (rect_ring x y w h) = true → 0 < w → 0 < h →
        compute_volume
          (compute_signed_area covers
            (parse_svg_shapes isValid cosF sinF pp [Elem.rect x y w h])) d
          = w * h * d / 1000) := by
  refine ⟨fun _ _ => rfl, ?_⟩
  intro covers isValid cosF sinF pp x y w h d hv hw hh
  rw [parse_rect isValid cosF sinF pp x y w h hv hw hh, compute_signed_area,
    nesting_pass_singleton, signed_sum_singleton_zero, polyArea_rect x y w h hw hh,
    compute_volume]

/-- Witness for C4: a 200 by 200 rectangle at depth 10 yields exactly 400. -/
theorem volume_formula_witness :
    compute_volume
      (compute_signed_area (fun _ _ => false)
        (parse_svg_shapes (fun _ => true) (fun _ => 0) (fun _ => 0) (fun _ => [])
          [Elem.rect 0 0 200 200])) 10 = 400 := by
  rw [volume_formula_and_rectangle.2 (fun _ _ => false) (fun _ => true) (fun _ => 0)
    (fun _ => 0) (fun _ => []) 0 0 200 200 10 rfl (by norm_num) (by norm_num)]
  norm_num

/-- C5: the cubic sampler produces exactly `CURVE_SAMPLES + 1` points at the
uniform parameters `t = i / CURVE_SAMPLES`, each the cubic Bernstein
interpolation of the four control points applied independently to x and y,
and both endpoints are included: point 0 is `p0` and point `CURVE_SAMPLES`
is `p3`. -/
theorem bezier_sampling_uniform (p0 p1 p2 p3 : Point) :
    (sample_cubic p0 p1 p2 p3).length = CURVE_SAMPLES + 1
    ∧ (∀ t : ℚ, ∀ a b c dd : ℚ, bezier_point a b c dd t
        = (1 - t) ^ 3 * a + 3 * (1 - t) ^ 2 * t * b + 3 * (1 - t) * t ^ 2 * c + t ^ 3 * dd)
    ∧ (∀ i : ℕ, (sample_cubic p0 p1 p2 p3)[i]?
        = if i < CURVE_SAMPLES + 1 then
            some (bezier_point p0.1 p1.1 p2.1 p3.1 ((i : ℚ) / (CURVE_SAMPLES : ℚ)),
                  bezier_point p0.2 p1.2 p2.2 p3.2 ((i : ℚ) / (CURVE_SAMPLES : ℚ)))
          else none)
    ∧ (sample_cubic p0 p1 p2 p3)[0]? = some p0
    ∧ (sample_cubic p0 p1 p2 p3)[CURVE_SAMPLES]? = some p3 := by
  have hnth : ∀ i : ℕ, (sample_cubic p0 p1 p2 p3)[i]?
      = if i < CURVE_SAMPLES + 1 then
          some (bezier_point p0.1 p1.1 p2.1 p3.1 ((i : ℚ) / (CURVE_SAMPLES : ℚ)),
                bezier_point p0.2 p1.2 p2.2 p3.2 ((i : ℚ) / (CURVE_SAMPLES : ℚ)))
        else none := by
    intro i
    by_cases hi : i < CURVE_SAMPLES + 1
    · rw [if_pos hi]
      rw [sample_cubic, List.getElem?_map, List.getElem?_range hi]
      rfl
    · rw [if_neg hi]
      exact List.getElem?_eq_none
        (by rw [sample_cubic, List.length_map, List.length_range]; omega)
  refine ⟨by rw [sample_cubic, List.length_map, List.length_range],
    fun t a b c dd => rfl, hnth, ?_, ?_⟩
  · rw [hnth 0, if_pos (by norm_num)]
    norm_num [bezier_point]
  · rw [hnth CURVE_SAMPLES, if_pos (by norm_num)]
    norm_num [bezier_point, CURVE_SAMPLES]

lemma mem_foldl_add_polygon (isValid : Ring → Bool) (rings : List Ring) :
    ∀ (acc : List Shape) (s : Shape), s ∈ rings.foldl (add_polygon isValid) acc →
      s ∈ acc ∨ (isValid s.polygon = true ∧ 0 < polyArea s.polygon) := by
  induction rings with
  | nil => intro acc s hs; exact Or.inl hs
  | cons r rest ih =>
      intro acc s hs
      rcases ih (add_polygon isValid acc r) s hs with h | h
      · rw [add_polygon] at h
        by_cases hcond : (isValid r && decide (0 < polyArea r)) = true
        · rw [if_pos hcond] at h
          rcases List.mem_append.mp h with h1 | h1
          · exact Or.inl h1
          · right
            have hs' : s = { polygon := r, nest_level := 0 } := by simpa using h1
            subst hs'
            simp only [Bool.and_eq_true, decide_eq_true_eq] at hcond
            exact ⟨hcond.1, hcond.2⟩
        · rw [if_neg hcond] at h
          exact Or.inl h
      · exact Or.inr h

lemma mem_parse_aux (isValid : Ring → Bool) (cosF sinF : ℕ → ℚ)
    (pp : String → List (List Seg)) (doc : List Elem) :
    ∀ (acc : List Shape) (s : Shape),
      s ∈ doc.foldl
        (fun shapes e => (elem_rings cosF sinF pp e).foldl (add_polygon isValid) shapes) acc →
      s ∈ acc ∨ (isValid s.polygon = true ∧ 0 < polyArea s.polygon) := by
  induction doc with
  | nil => intro acc s hs; exact Or.inl hs
  | cons e rest ih =>
      intro acc s hs
      rcases ih ((elem_rings cosF sinF pp e).foldl (add_polygon isValid) acc) s hs with h | h
      · exact mem_foldl_add_polygon isValid (elem_rings cosF sinF pp e) acc s h
      · exact Or.inr h

/-- C6: every shape in the extraction's working set passed the `add_polygon`
guard: its ring was accepted by the validity oracle and has strictly positive
shoelace area.  Zero- and negative-area candidates never appear. -/
theorem extracted_shapes_positive_area (isValid : Ring → Bool) (cosF sinF : ℕ → ℚ)
    (pp : String → List (List Seg)) (doc : List Elem) :
    ∀ s ∈ parse_svg_shapes isValid cosF sinF pp doc,
      isValid s.polygon = true ∧ 0 < polyArea s.polygon := by
  intro s hs
  rcases mem_parse_aux isValid cosF sinF pp doc [] s hs with h | h
  · exact absurd h (List.not_mem_nil s)
  · exact h

/-- Witness for C6 at a concrete rectangle document. -/
theorem extracted_shapes_positive_area_witness :
    (fun _ => true : Ring → Bool) (rect_ring 0 0 2 3) = true
    ∧ 0 < polyArea (rect_ring 0 0 2 3) := by
  have hmem : ({ polygon := rect_ring 0 0 2 3, nest_level := 0 } : Shape)
      ∈ parse_svg_shapes (fun _ => true) (fun _ => 0) (fun _ => 0) (fun _ => [])
          [Elem.rect 0 0 2 3] := by
    rw [parse_rect (fun _ => true) (fun _ => 0) (fun _ => 0) (fun _ => []) 0 0 2 3 rfl
      (by norm_num) (by norm_num)]
    exact List.mem_singleton.mpr rfl
  exact extracted_shapes_positive_area (fun _ => true) (fun _ => 0) (fun _ => 0)
    (fun _ => []) [Elem.rect 0 0 2 3] { polygon := rect_ring 0 0 2 3, nest_level := 0 } hmem

/-- C7 counterexample: the core volume computation (app.py line 197) performs
no defensive depth check of its own: at the negative depth -1 it produces the
volume -40 instead of failing. -/
theorem core_accepts_negative_depth : compute_volume 40000 (-1) = -40 := by
  norm_num [compute_volume]

lemma digitVal_nonneg (c : Char) : 0 ≤ digitVal c := by
  simp [digitVal]

lemma intPartVal_nonneg (cs : List Char) : 0 ≤ intPartVal cs := by
  rw [intPartVal]
  have h : ∀ a : ℚ, 0 ≤ a → 0 ≤ cs.foldl (fun a c => 10 * a + digitVal c) a := by
    induction cs with
    | nil => intro a ha; exact ha
    | cons c rest ih =>
        intro a ha
        simp only [List.foldl_cons]
        exact ih _ (by nlinarith [digitVal_nonneg c])
  exact h 0 le_rfl

lemma fracPartVal_nonneg (cs : List Char) : 0 ≤ fracPartVal cs := by
  rw [fracPartVal]
  induction cs with
  | nil => simp
  | cons c rest ih =>
      simp only [List.foldr_cons]
      have := digitVal_nonneg c
      positivity

/-- C7 amended: the textual validation inside `calculate` guarantees only
non-negativity: any depth text it accepts (no minus sign, only digits and at
most one dot) parses to a value `≥ 0`, so the volume computation never sees a
negative depth.  No finiteness guarantee holds: in the source an all-digit
string beyond double range passes the same checks and `float()` yields
infinity, so the pipeline can report a non-finite volume; that overflow lies
outside this exact rational model. -/
theorem validated_depth_nonneg (s : List Char) (d : ℚ)
    (h : validateDepth s = some d) : 0 ≤ d := by
  rw [validateDepth] at h
  split at h
  · exact absurd h (by simp)
  · split at h <;> dsimp only at h <;> split at h
    · rw [← Option.some.inj h, decimalValue]
      exact add_nonneg (intPartVal_nonneg _) (fracPartVal_nonneg _)
    · exact absurd h (by simp)
    · rw [← Option.some.inj h, decimalValue]
      exact add_nonneg (intPartVal_nonneg _) (fracPartVal_nonneg _)
    · exact absurd h (by simp)

/-- Witness for C7's amended statement: the depth text `2.5` validates to the
non-negative value 5/2. -/
theorem validated_depth_nonneg_witness :
    validateDepth ['2', '.', '5'] = some (5 / 2) ∧ (0 : ℚ) ≤ 5 / 2 := by
  have h : validateDepth ['2', '.', '5'] = some (5 / 2) := by
    rw [validateDepth, if_neg (by decide)]
    dsimp only
    rw [if_pos (by decide), if_neg (by decide)]
    have ht : ((['2', '.', '5'] : List Char).takeWhile fun c => c ≠ '.') = ['2'] := by decide
    have hdr : (((['2', '.', '5'] : List Char).dropWhile fun c => c ≠ '.').drop 1) = ['5'] := by
      decide
    have h2 : '2'.toNat - '0'.toNat = 2 := by decide
    have h5 : '5'.toNat - '0'.toNat = 5 := by decide
    rw [decimalValue, ht, hdr]
    norm_num [intPartVal, fracPartVal, digitVal, h2, h5]
  exact ⟨h, validated_depth_nonneg ['2', '.', '5'] (5 / 2) h⟩

/-- C8: the pipeline is deterministic: extracting twice from the same parsed
document, with the same oracles, yields syntactically the same shape list and
the same net area.  In this pure embedding the extraction and aggregation read
nothing but their arguments, so both runs coincide definitionally. -/
theorem pipeline_deterministic (isValid : Ring → Bool) (cosF sinF : ℕ → ℚ)
    (pp : String → List (List Seg)) (doc : List Elem) (covers : Ring → Ring → Bool) :
    parse_svg_shapes isValid cosF sinF pp doc = parse_svg_shapes isValid cosF sinF pp doc
    ∧ compute_signed_area covers (parse_svg_shapes isValid cosF sinF pp doc)
        = compute_signed_area covers (parse_svg_shapes isValid cosF sinF pp doc) :=
  ⟨rfl, rfl⟩

/-- C9: when extraction yields no shapes, `compute_signed_area` returns
exactly 0, and for any depth text that validates, `calculate` succeeds and
reports the volume 0 rather than failing. -/
theorem empty_extraction_yields_zero_volume (covers : Ring → Ring → Bool)
    (isValid : Ring → Bool) (cosF sinF : ℕ → ℚ) (pp : String → List (List Seg))
    (doc : List Elem) (hdoc : parse_svg_shapes isValid cosF sinF pp doc = [])
    (depth_input : List Char) (d : ℚ) (hd : validateDepth depth_input = some d) :
    compute_signed_area covers (parse_svg_shapes isValid cosF sinF pp doc) = 0
    ∧ calculate covers isValid cosF sinF pp doc depth_input = some 0 := by
  have h0 : compute_signed_area covers (parse_svg_shapes isValid cosF sinF pp doc) = 0 := by
    rw [hdoc]; rfl
  refine ⟨h0, ?_⟩
  simp only [calculate, hd, h0, compute_volume]
  norm_num

/-- Witness for C9: a document with one unsupported element extracts to no
shapes, and depth text `10` reports volume 0. -/
theorem empty_extraction_witness :
    parse_svg_shapes (fun _ => true) (fun _ => 0) (fun _ => 0) (fun _ => [])
        [Elem.other] = []
    ∧ validateDepth ['1', '0'] = some 10
    ∧ calculate (fun _ _ => true) (fun _ => true) (fun _ => 0) (fun _ => 0)
        (fun _ => []) [Elem.other] ['1', '0'] = some 0 := by
  have hd : validateDepth ['1', '0'] = some 10 := by
    rw [validateDepth, if_neg (by decide)]
    dsimp only
    rw [if_pos (by decide), if_neg (by decide)]
    have ht : ((['1', '0'] : List Char).takeWhile fun c => c ≠ '.') = ['1', '0'] := by decide
    have hdr : (((['1', '0'] : List Char).dropWhile fun c => c ≠ '.').drop 1) = [] := by decide
    have h1 : '1'.toNat - '0'.toNat = 1 := by decide
    have h0 : '0'.toNat - '0'.toNat = 0 := by decide
    rw [decimalValue, ht, hdr]
    norm_num [intPartVal, fracPartVal, digitVal, h1, h0]
  refine ⟨rfl, hd, ?_⟩
  exact (empty_extraction_yields_zero_volume (fun _ _ => true) (fun _ => true)
    (fun _ => 0) (fun _ => 0) (fun _ => []) [Elem.other] rfl ['1', '0'] 10 hd).2

/-- C10: a path element whose `d` attribute is absent or empty contributes no
polygons and extraction of the surrounding elements is unaffected. -/
theorem empty_path_attribute_skipped (isValid : Ring → Bool) (cosF sinF : ℕ → ℚ)
    (pp : String → List (List Seg)) (L1 L2 : List Elem) (d : Option String)
    (hd : d = none ∨ d = some "") :
    parse_svg_shapes isValid cosF sinF pp (L1 ++ Elem.path d :: L2)
      = parse_svg_shapes isValid cosF sinF pp (L1 ++ L2) := by
  rw [parse_svg_shapes, parse_svg_shapes, List.foldl_append, List.foldl_append,
    List.foldl_cons]
  rcases hd with rfl | rfl
  · rfl
  · rfl

/-- Witness for C10: a lone path element with no `d` attribute extracts to the
same (empty) shape list as the empty document. -/
theorem empty_path_attribute_skipped_witness :
    parse_svg_shapes (fun _ => true) (fun _ => 0) (fun _ => 0) (fun _ => [])
        ([] ++ Elem.path none :: [])
      = parse_svg_shapes (fun _ => true) (fun _ => 0) (fun _ => 0) (fun _ => [])
        ([] ++ []) :=
  empty_path_attribute_skipped (fun _ => true) (fun _ => 0) (fun _ => 0) (fun _ => [])
    [] [] none (Or.inl rfl)

end SvgVol
